import Mathlib

/-!
Verification of the `search_rank` candidate-search pipeline.

The repository is a sequential pipeline: embed a query, retrieve candidates
from a vector store, filter/score them with two rerankers, sort by a weighted
sum, and truncate to the top `final_k`.  External collaborators (the embedding
service, the vector database, the cross-encoder model, the evaluation HTTP
API) are modelled as function parameters; everything the repository itself
computes is embedded below.

Numeric scores are modelled with `Rat` (the Python code uses floats; every
property verified here is an order/interval/structure property that does not
depend on rounding).  Python strings are modelled as `String`, with the
handful of string primitives the code uses (`lower`, `split`, substring
membership, `re` searches) implemented over `List Char` by structural
recursion so that concrete instances evaluate.
-/

namespace SearchRank

/-! ## String primitives (models of the Python string operations used) -/

/-- Model of Python `str.lower()` (ASCII case folding, which is all the
repository's data uses). -/
def strLower (s : String) : String := ⟨s.data.map Char.toLower⟩

/-- Whether `pre` is a leading segment of `l` (character-wise). -/
def leadMatch : List Char → List Char → Bool
  | [], _ => true
  | _ :: _, [] => false
  | a :: as, b :: bs => a == b && leadMatch as bs

/-- Whether `needle` occurs contiguously inside `hay`:
model of Python's `needle in hay` on strings. -/
def hasSubList (needle : List Char) : List Char → Bool
  | [] => leadMatch needle []
  | c :: rest => leadMatch needle (c :: rest) || hasSubList needle rest

/-- `pyIn needle hay` models Python `needle in hay` (substring test). -/
def pyIn (needle hay : String) : Bool := hasSubList needle.data hay.data

/-- Splitter used to model Python `str.split()`: accumulates the current run
of non-whitespace characters (reversed) and emits maximal runs. -/
def splitWsAux : List Char → List Char → List String
  | acc, [] => if acc.isEmpty then [] else [⟨acc.reverse⟩]
  | acc, c :: rest =>
    if c.isWhitespace then
      if acc.isEmpty then splitWsAux [] rest
      else (⟨acc.reverse⟩ : String) :: splitWsAux [] rest
    else splitWsAux (c :: acc) rest

/-- Model of Python `str.split()` with no argument: split on whitespace runs,
dropping empty pieces. -/
def pySplit (s : String) : List String := splitWsAux [] s.data

/-- Model of Python `" ".join(l)`. -/
def joinSp (l : List String) : String := String.intercalate " " l

/-- Tokenizer used to model `re.findall(r'\b\w+\b', s)`: emits maximal runs
of word characters (alphanumeric or underscore). -/
def wordTokensAux : List Char → List Char → List String
  | acc, [] => if acc.isEmpty then [] else [⟨acc.reverse⟩]
  | acc, c :: rest =>
    if c.isAlphanum || c == '_' then wordTokensAux (c :: acc) rest
    else if acc.isEmpty then wordTokensAux [] rest
    else (⟨acc.reverse⟩ : String) :: wordTokensAux [] rest

/-- Model of `re.findall(r'\b\w+\b', s)`. -/
def wordTokens (s : String) : List String := wordTokensAux [] s.data

/-- Numeric value of a run of decimal digits, as Python `int` parses it. -/
def digitsToNat (cs : List Char) : Nat :=
  cs.foldl (fun n c => 10 * n + (c.toNat - '0'.toNat)) 0

/-- Model of Python `str.isdigit()` (`False` on the empty string). -/
def pyIsDigit (s : String) : Bool := !s.data.isEmpty && s.data.all Char.isDigit

/-- First maximal run of decimal digits in the string, as found by
`re.search(r'(\d+)', s)`; `none` when the string has no digit. -/
def firstNumber : List Char → Option Nat
  | [] => none
  | c :: rest =>
    if c.isDigit then some (digitsToNat (c :: rest.takeWhile Char.isDigit))
    else firstNumber rest

/-- Attempt to match the tail of the regex `(\d+)\s*\+?\s*year` starting at
this exact position: a digit run, optional whitespace, an optional `+`,
optional whitespace, then the literal `year`.  Returns the parsed digit run. -/
def matchYearsHere (cs : List Char) : Option Nat :=
  let ds := cs.takeWhile Char.isDigit
  if ds.isEmpty then none
  else
    let r1 := (cs.dropWhile Char.isDigit).dropWhile Char.isWhitespace
    let r2 := match r1 with
      | '+' :: t => t
      | _ => r1
    let r3 := r2.dropWhile Char.isWhitespace
    if leadMatch "year".data r3 then some (digitsToNat ds) else none

/-- Model of `re.search(r'(\d+)\s*\+?\s*year', s)`: the leftmost position at
which the pattern matches, returning the captured number. -/
def findYearsNumber : List Char → Option Nat
  | [] => none
  | c :: rest =>
    match matchYearsHere (c :: rest) with
    | some n => some n
    | none => findYearsNumber rest

/-- First-occurrence deduplication, modelling Python `dict` key insertion
(later duplicate keys do not create new entries). -/
def dedupFirstAux (seen : List String) : List String → List String
  | [] => []
  | x :: xs =>
    if seen.contains x then dedupFirstAux seen xs
    else x :: dedupFirstAux (x :: seen) xs

/-- Distinct elements of `l`, keeping the first occurrence of each. -/
def dedupFirst (l : List String) : List String := dedupFirstAux [] l

/-! ## Data model

A candidate row returned by the vector store: an `_id`, a vector `distance`
(`candidate.get("distance", 0.0)`: absent keys read as the default, which the
structure default models), and an `attributes` dictionary whose fields the
rerankers read (absent keys read as `""` / `[]`). -/

/-- The attribute fields of a candidate profile that the repository reads. -/
structure Attributes where
  rerankSummary : String
  education : List String
  experience : List String
  exp_titles : List String
  exp_companies : List String
  deg_degrees : List String
  exp_years : List String
deriving DecidableEq

/-- An `Attributes` value in which every key is absent. -/
def emptyAttrs : Attributes := ⟨"", [], [], [], [], [], []⟩

/-- A candidate row from the vector store. -/
structure Candidate where
  id : String
  distance : Rat
  attrs : Attributes
deriving DecidableEq

/-- The cross-encoder model: an external pretrained scorer taking a
(query, document) pair to a scalar relevance score. -/
def CE : Type := String → String → Rat

/-- A candidate together with the four score fields that `rerank` writes into
the candidate dictionary (`rerank_score`, `ce_score`, `soft_score`,
`distance_score`). -/
structure Scored where
  cand : Candidate
  rerank_score : Rat
  ce_score : Rat
  soft_score : Rat
  distance_score : Rat
deriving DecidableEq

/-! ## numpy-style helpers -/

/-- `arrMax l` models `np.array(l).max()` (the code only calls it on
non-empty lists). -/
def arrMax : List Rat → Rat
  | [] => 0
  | x :: xs => xs.foldl max x

/-- `arrMin l` models `np.array(l).min()`. -/
def arrMin : List Rat → Rat
  | [] => 0
  | x :: xs => xs.foldl min x

/-- Min–max normalization of a score array, as both rerankers apply to the
cross-encoder scores: when `max > min`, map `x ↦ (x - min)/(max - min)`;
otherwise leave the array unchanged. -/
def minMaxNormalize (l : List Rat) : List Rat :=
  if arrMin l < arrMax l then
    l.map (fun x => (x - arrMin l) / (arrMax l - arrMin l))
  else l

/-- Distance-score computation of both rerankers: when `max > min`, map
`d ↦ 1 - (d - min)/(max - min)`; otherwise `np.ones(len)`. -/
def distanceScores (l : List Rat) : List Rat :=
  if arrMin l < arrMax l then
    l.map (fun d => 1 - (d - arrMin l) / (arrMax l - arrMin l))
  else l.map (fun _ => 1)

/-- Zip the candidates with their three per-candidate score arrays, writing
the weighted sum and the component scores into each candidate, as the
`for i, candidate in enumerate(candidates)` loop of both `rerank` methods
does. -/
def combineScores (cross_encoder_weight soft_criteria_weight distance_weight : Rat) :
    List Candidate → List Rat → List Rat → List Rat → List Scored
  | c :: cs, a :: as, b :: bs, d :: ds =>
    { cand := c
      rerank_score :=
        cross_encoder_weight * a + soft_criteria_weight * b + distance_weight * d
      ce_score := a
      soft_score := b
      distance_score := d } ::
      combineScores cross_encoder_weight soft_criteria_weight distance_weight cs as bs ds
  | _, _, _, _ => []

/-- `sorted(candidates, key=lambda x: x["rerank_score"], reverse=True)`:
Python's stable descending sort by the final score. -/
def sortByScore (l : List Scored) : List Scored :=
  l.mergeSort (fun a b => decide (b.rerank_score ≤ a.rerank_score))

/-! ## `reranker.py`: class `Reranker` -/

/-- The `Reranker` object: its only state is the cross-encoder model loaded
in `__init__`. -/
structure Reranker where
  cross_encoder : CE

/-- Text extracted for cross-encoder scoring in
`Reranker.score_with_cross_encoder`: the `rerankSummary` attribute, falling
back to `f"{education} {experience}"` when it is empty. -/
def rerankTextR (c : Candidate) : String :=
  let text := c.attrs.rerankSummary
  if text = "" then joinSp c.attrs.education ++ " " ++ joinSp c.attrs.experience
  else text

/-- `Reranker.score_with_cross_encoder`: score each candidate's text against
the query with the cross-encoder. -/
def Reranker.score_with_cross_encoder (self : Reranker) (query : String)
    (candidates : List Candidate) : List Rat :=
  candidates.map (fun c => self.cross_encoder query (rerankTextR c))

/-- Contribution of a single soft criterion in
`Reranker.score_soft_criteria`: 1.0 if any keyword of the criterion occurs in
`rerankSummary`, else 0.8 for `experience`, else 0.6 for `exp_titles`,
else 0. -/
def softCriterionScore (attrs : Attributes) (criterion : String) : Rat :=
  let kws := pySplit (strLower criterion)
  let summary := strLower attrs.rerankSummary
  if kws.any (fun k => pyIn k summary) then 1
  else
    let experience := strLower (joinSp attrs.experience)
    if kws.any (fun k => pyIn k experience) then 8/10
    else
      let titles := strLower (joinSp attrs.exp_titles)
      if kws.any (fun k => pyIn k titles) then 6/10
      else 0

/-- `Reranker.score_soft_criteria`: keyword-presence score of a candidate
against the soft criteria, in `[0,1]`; `1.0` when there are no criteria. -/
def Reranker.score_soft_criteria (_self : Reranker) (candidate : Candidate)
    (soft_criteria : List String) : Rat :=
  let max_score : Nat := soft_criteria.length
  if max_score = 0 then 1
  else
    let score := (soft_criteria.map (softCriterionScore candidate.attrs)).sum
    min (score / (max_score : Rat)) 1

/-- `Reranker.rerank`: combine normalized cross-encoder scores, soft-criteria
scores and distance scores into a weighted sum and sort descending. -/
def Reranker.rerank (self : Reranker) (query : String)
    (candidates : List Candidate) (soft_criteria : List String)
    (use_cross_encoder : Bool)
    (cross_encoder_weight soft_criteria_weight distance_weight : Rat) :
    List Scored :=
  if candidates.isEmpty then []
  else
    let ce_scores :=
      if use_cross_encoder then
        minMaxNormalize (self.score_with_cross_encoder query candidates)
      else candidates.map (fun _ => 1)
    let soft_scores :=
      if !soft_criteria.isEmpty then
        candidates.map (fun c => self.score_soft_criteria c soft_criteria)
      else candidates.map (fun _ => 1)
    let distance_scores := distanceScores (candidates.map (·.distance))
    sortByScore (combineScores cross_encoder_weight soft_criteria_weight
      distance_weight candidates ce_scores soft_scores distance_scores)

/-! ## `enhanced_reranker.py`: class `EnhancedReranker` -/

/-- The `EnhancedReranker` object: its only state is the cross-encoder model
loaded in `__init__`. -/
structure EnhancedReranker where
  cross_encoder : CE

/-- The stop-word set of `EnhancedReranker.extract_keywords`. -/
def stopWords : List String :=
  ["the", "a", "an", "and", "or", "but", "in", "on", "at", "to", "for",
   "of", "with", "by", "from", "as", "is", "was", "are", "been", "be",
   "have", "has", "had", "do", "does", "did", "will", "would", "should",
   "could", "may", "might", "must", "can", "experience", "advising"]

/-- `EnhancedReranker.extract_keywords`: word tokens of the lowercased
criteria string, with stop words and words of length ≤ 2 removed. -/
def EnhancedReranker.extract_keywords (_self : EnhancedReranker)
    (criteria : String) : List String :=
  (wordTokens (strLower criteria)).filter
    (fun w => !stopWords.contains w && w.length > 2)

/-- One criterion of `EnhancedReranker.check_hard_criteria`: the JD-degree
check followed by the years-of-experience check; `true` when neither check
rejects the candidate. -/
def hardCriterionOk (attrs : Attributes) (criterion : String) : Bool :=
  let cl := strLower criterion
  let jdOk :=
    if pyIn "jd" cl || pyIn "juris doctor" cl || pyIn "law school" cl then
      attrs.deg_degrees.any (fun d =>
        pyIn "jd" (strLower d) || pyIn "doctor of law" (strLower d))
    else true
  let yearsOk :=
    if pyIn "year" cl && pyIn "experience" cl then
      match findYearsNumber cl.data with
      | some required_years =>
        if !attrs.exp_years.isEmpty then
          let max_bucket := attrs.exp_years.foldl
            (fun m bucket =>
              let stripped : String := ⟨bucket.data.filter (fun c => c ≠ '+')⟩
              if pyIsDigit stripped then max m (digitsToNat stripped.data) else m)
            0
          decide (required_years ≤ max_bucket)
        else true
      | none => true
    else true
  jdOk && yearsOk

/-- `EnhancedReranker.check_hard_criteria`: `true` iff no hard criterion
rejects the candidate. -/
def EnhancedReranker.check_hard_criteria (_self : EnhancedReranker)
    (candidate : Candidate) (hard_criteria : List String) : Bool :=
  hard_criteria.all (hardCriterionOk candidate.attrs)

/-- Per-criterion score in `EnhancedReranker.score_soft_criteria_enhanced`:
0.5 when the criterion yields no keywords; otherwise the keyword-match mass
(1.0 / 0.7 / 0.4 per keyword by field) normalized by the keyword count and
capped at 1. -/
def enhancedCriterionScore (self : EnhancedReranker) (attrs : Attributes)
    (criterion : String) : Rat :=
  let keywords := self.extract_keywords criterion
  if keywords.isEmpty then 1/2
  else
    let summary := strLower attrs.rerankSummary
    let experience := strLower (joinSp attrs.experience)
    let education := strLower (joinSp attrs.education)
    let titles := strLower (joinSp attrs.exp_titles)
    let companies := strLower (joinSp attrs.exp_companies)
    let keyword_matches := (keywords.map (fun k =>
      if pyIn k summary then (1 : Rat)
      else if pyIn k experience || pyIn k titles then 7/10
      else if pyIn k companies || pyIn k education then 4/10
      else 0)).sum
    min (keyword_matches / (keywords.length : Rat)) 1

/-- `EnhancedReranker.score_soft_criteria_enhanced`: the overall score (mean
of the per-criterion scores over the distinct criteria, the keys of the
Python breakdown dict) together with the breakdown itself. -/
def EnhancedReranker.score_soft_criteria_enhanced (self : EnhancedReranker)
    (candidate : Candidate) (soft_criteria : List String) :
    Rat × List (String × Rat) :=
  let breakdown := (dedupFirst soft_criteria).map
    (fun cr => (cr, enhancedCriterionScore self candidate.attrs cr))
  let vals := breakdown.map (·.2)
  (if vals.isEmpty then 0 else vals.sum / (vals.length : Rat), breakdown)

/-- Text extracted for cross-encoder scoring in `EnhancedReranker.rerank`:
`rerankSummary`, falling back to `f"{exp} {edu}"` when it is empty. -/
def rerankTextE (c : Candidate) : String :=
  let text := c.attrs.rerankSummary
  if text = "" then joinSp c.attrs.experience ++ " " ++ joinSp c.attrs.education
  else text

/-- `EnhancedReranker.rerank`: filter by hard criteria, then combine
normalized cross-encoder scores, enhanced soft-criteria scores and distance
scores into a weighted sum and sort descending. -/
def EnhancedReranker.rerank (self : EnhancedReranker) (query : String)
    (candidates : List Candidate) (hard_criteria soft_criteria : List String)
    (use_cross_encoder : Bool)
    (cross_encoder_weight soft_criteria_weight distance_weight : Rat) :
    List Scored :=
  if candidates.isEmpty then []
  else
    let cands :=
      if !hard_criteria.isEmpty then
        candidates.filter (fun c => self.check_hard_criteria c hard_criteria)
      else candidates
    if cands.isEmpty then []
    else
      let ce_scores :=
        if use_cross_encoder then
          minMaxNormalize (cands.map (fun c => self.cross_encoder query (rerankTextE c)))
        else cands.map (fun _ => 1)
      let soft_scores :=
        if !soft_criteria.isEmpty then
          cands.map (fun c => (self.score_soft_criteria_enhanced c soft_criteria).1)
        else cands.map (fun _ => 1)
      let distance_scores := distanceScores (cands.map (·.distance))
      sortByScore (combineScores cross_encoder_weight soft_criteria_weight
        distance_weight cands ce_scores soft_scores distance_scores)

/-! ## `filter_builder.py`: class `FilterBuilder` -/

/-- `FilterBuilder.parse_experience_years`: the first number found by
`re.search(r'(\d+)\+?', s)` mapped to the experience bucket `"10"`, `"5"`,
`"3"` or `"1"`; `none` when the string has no digits. -/
def FilterBuilder.parse_experience_years (years_str : String) : Option String :=
  match firstNumber years_str.data with
  | some years =>
    some (if 10 ≤ years then "10" else if 5 ≤ years then "5"
          else if 3 ≤ years then "3" else "1")
  | none => none

/-- `FilterBuilder.build_years_filter`: an `In`-filter on `{field_type}_years`
listing every bucket whose numeric value is at least the parsed bucket;
`none` (the empty dict) when parsing fails. -/
def FilterBuilder.build_years_filter (min_years : String) (field_type : String) :
    Option (String × List String) :=
  match FilterBuilder.parse_experience_years min_years with
  | some bucket =>
    let valid_buckets :=
      if ["1", "3", "5", "10"].contains bucket then
        ["1", "3", "5", "10"].filter
          (fun b => digitsToNat bucket.data ≤ digitsToNat b.data)
      else []
    some (field_type ++ "_years", valid_buckets)
  | none => none

/-! ## `evaluation_client.py`: class `EvaluationClient`

The HTTP POST is an external collaborator; what the repository computes is
the submitted payload, and the `ValueError` on an empty ID list. -/

/-- The JSON payload `EvaluationClient.evaluate` submits. -/
structure EvalPayload where
  config_path : String
  object_ids : List String
deriving DecidableEq

/-- `EvaluationClient.evaluate`: `ValueError` when `object_ids` is empty;
otherwise submit the IDs, truncated to the first 10 when more are given. -/
def EvaluationClient.evaluate (config_path : String) (object_ids : List String) :
    Except String EvalPayload :=
  if object_ids.isEmpty then .error "object_ids cannot be empty"
  else
    let ids := if 10 < object_ids.length then object_ids.take 10 else object_ids
    .ok ⟨config_path, ids⟩

/-- `EvaluationClient.evaluate_from_results`: extract the `_id` fields of the
first `top_k` results and submit them. -/
def EvaluationClient.evaluate_from_results (config_path : String)
    (results : List Candidate) (top_k : Nat) : Except String EvalPayload :=
  EvaluationClient.evaluate config_path ((results.take top_k).map (·.id))

/-! ## `search_pipeline.py`: class `SearchPipeline` -/

/-- Pre-built filters passed through to the vector store (opaque to the
pipeline). -/
def Filters : Type := List (String × List String)

/-- The `SearchPipeline` object: the external embedding client and vector
store client as functions, the cross-encoder of the reranker constructed in
`__init__`, and the configuration flags. -/
structure SearchPipeline where
  embed_query : String → List Rat
  tpuf_query : List Rat → Nat → Option Filters → List Candidate
  cross_encoder : CE
  use_reranking : Bool
  use_enhanced_reranker : Bool
  initial_k : Nat
  final_k : Nat

/-- The ranked candidate list the pipeline produces before truncation:
embed the query, retrieve `initial_k` candidates, and re-rank them (enhanced
or plain) when re-ranking is enabled and more than one candidate came back. -/
def searchRanked (self : SearchPipeline) (query_text : String)
    (hard_criteria soft_criteria : List String) (filters : Option Filters) :
    List Candidate :=
  let query_embedding := self.embed_query query_text
  let results := self.tpuf_query query_embedding self.initial_k filters
  if results.isEmpty then []
  else
    if self.use_reranking && 1 < results.length then
      if self.use_enhanced_reranker then
        ((EnhancedReranker.rerank ⟨self.cross_encoder⟩ query_text results
          hard_criteria soft_criteria true (3/10) (5/10) (2/10)).map (·.cand))
      else
        ((Reranker.rerank ⟨self.cross_encoder⟩ query_text results
          soft_criteria true (6/10) (2/10) (2/10)).map (·.cand))
    else results

/-- `SearchPipeline.search`: embed → retrieve → filter/score → sort →
truncate to the first `final_k`. -/
def SearchPipeline.search (self : SearchPipeline) (query_text : String)
    (hard_criteria soft_criteria : List String) (filters : Option Filters) :
    List Candidate :=
  let query_embedding := self.embed_query query_text
  let results := self.tpuf_query query_embedding self.initial_k filters
  if results.isEmpty then []
  else
    let ranked :=
      if self.use_reranking && 1 < results.length then
        if self.use_enhanced_reranker then
          ((EnhancedReranker.rerank ⟨self.cross_encoder⟩ query_text results
            hard_criteria soft_criteria true (3/10) (5/10) (2/10)).map (·.cand))
        else
          ((Reranker.rerank ⟨self.cross_encoder⟩ query_text results
            soft_criteria true (6/10) (2/10) (2/10)).map (·.cand))
      else results
    ranked.take self.final_k

/-! ## Per-candidate normal forms of the two `rerank` methods

Both `rerank` methods compute three score arrays that are pointwise functions
of the candidate list; the functions below name those pointwise values, and
the lemmas that follow show each `rerank` equals a stable descending sort of
`candidates.map (mkScored …)`. -/

/-- A candidate with its three component scores and their weighted sum
attached. -/
def mkScored (cross_encoder_weight soft_criteria_weight distance_weight : Rat)
    (fa fb fd : Candidate → Rat) (c : Candidate) : Scored :=
  { cand := c
    rerank_score := cross_encoder_weight * fa c + soft_criteria_weight * fb c +
      distance_weight * fd c
    ce_score := fa c
    soft_score := fb c
    distance_score := fd c }

/-- Per-candidate cross-encoder score of `Reranker.rerank`: the raw score
min–max normalized over the batch when the batch is not constant; the raw
score itself when it is; `1` when the cross-encoder is disabled. -/
def ceFnR (self : Reranker) (query : String) (cands : List Candidate)
    (use_cross_encoder : Bool) (c : Candidate) : Rat :=
  if use_cross_encoder then
    if arrMin (cands.map (fun x => self.cross_encoder query (rerankTextR x))) <
        arrMax (cands.map (fun x => self.cross_encoder query (rerankTextR x))) then
      (self.cross_encoder query (rerankTextR c) -
          arrMin (cands.map (fun x => self.cross_encoder query (rerankTextR x)))) /
        (arrMax (cands.map (fun x => self.cross_encoder query (rerankTextR x))) -
          arrMin (cands.map (fun x => self.cross_encoder query (rerankTextR x))))
    else self.cross_encoder query (rerankTextR c)
  else 1

/-- Per-candidate cross-encoder score of `EnhancedReranker.rerank`. -/
def ceFnE (self : EnhancedReranker) (query : String) (cands : List Candidate)
    (use_cross_encoder : Bool) (c : Candidate) : Rat :=
  if use_cross_encoder then
    if arrMin (cands.map (fun x => self.cross_encoder query (rerankTextE x))) <
        arrMax (cands.map (fun x => self.cross_encoder query (rerankTextE x))) then
      (self.cross_encoder query (rerankTextE c) -
          arrMin (cands.map (fun x => self.cross_encoder query (rerankTextE x)))) /
        (arrMax (cands.map (fun x => self.cross_encoder query (rerankTextE x))) -
          arrMin (cands.map (fun x => self.cross_encoder query (rerankTextE x))))
    else self.cross_encoder query (rerankTextE c)
  else 1

/-- Per-candidate soft score of `Reranker.rerank`: the soft-criteria score
when criteria were supplied, `1` otherwise. -/
def softFnR (self : Reranker) (soft_criteria : List String) (c : Candidate) : Rat :=
  if !soft_criteria.isEmpty then self.score_soft_criteria c soft_criteria else 1

/-- Per-candidate soft score of `EnhancedReranker.rerank`. -/
def softFnE (self : EnhancedReranker) (soft_criteria : List String) (c : Candidate) : Rat :=
  if !soft_criteria.isEmpty then
    (self.score_soft_criteria_enhanced c soft_criteria).1
  else 1

/-- Per-candidate distance score of both `rerank` methods: min–max
normalized and inverted when the distances are not all equal, else `1`. -/
def distFn (cands : List Candidate) (c : Candidate) : Rat :=
  if arrMin (cands.map (·.distance)) < arrMax (cands.map (·.distance)) then
    1 - (c.distance - arrMin (cands.map (·.distance))) /
      (arrMax (cands.map (·.distance)) - arrMin (cands.map (·.distance)))
  else 1

/-- The candidate list surviving Step 1 (hard-criteria filtering) of
`EnhancedReranker.rerank`. -/
def filteredCands (self : EnhancedReranker) (candidates : List Candidate)
    (hard_criteria : List String) : List Candidate :=
  if !hard_criteria.isEmpty then
    candidates.filter (fun c => self.check_hard_criteria c hard_criteria)
  else candidates

/-! ## Concrete inputs used by the witnesses and counterexamples -/

/-- A constant cross-encoder (external model stub) returning `v`. -/
def constCE (v : Rat) : CE := fun _ _ => v

/-- A candidate holding a JD degree, at distance 0. -/
def candJD : Candidate := ⟨"1", 0, { emptyAttrs with deg_degrees := ["JD"] }⟩

/-- A candidate with no degrees, at distance 1. -/
def candPlain : Candidate := ⟨"2", 1, emptyAttrs⟩

/-- A third candidate, at distance 1/2. -/
def candMid : Candidate := ⟨"3", 1/2, emptyAttrs⟩

/-- A pipeline whose vector store returns the two fixed candidates
`candJD` and `candPlain`, with the default configuration. -/
def pipeTwo : SearchPipeline :=
  { embed_query := fun _ => []
    tpuf_query := fun _ _ _ => [candJD, candPlain]
    cross_encoder := constCE 0
    use_reranking := true
    use_enhanced_reranker := true
    initial_k := 100
    final_k := 10 }

/-- A pipeline whose vector store returns only `candPlain` (one candidate,
which fails a JD hard criterion), with the default configuration. -/
def pipeOne : SearchPipeline :=
  { embed_query := fun _ => []
    tpuf_query := fun _ _ _ => [candPlain]
    cross_encoder := constCE 0
    use_reranking := true
    use_enhanced_reranker := true
    initial_k := 100
    final_k := 10 }

/-- A pipeline whose vector store returns nothing. -/
def pipeEmpty : SearchPipeline :=
  { embed_query := fun _ => []
    tpuf_query := fun _ _ _ => []
    cross_encoder := constCE 0
    use_reranking := true
    use_enhanced_reranker := true
    initial_k := 100
    final_k := 10 }

/-- Whether an `evaluate` call raised (`ValueError`) rather than submitting. -/
def isErr : Except String EvalPayload → Bool
  | .error _ => true
  | .ok _ => false

/-- Modelled from the spec claim (C9 wording): the largest experience bucket
that is less than or equal to `n`, when one exists. -/
def claimedBucket (n : Nat) : Option Nat :=
  (([1, 3, 5, 10] : List Nat).filter (fun b => b ≤ n)).max?

/-- A candidate whose summary is "alpha", at distance 0. -/
def candA : Candidate := ⟨"A", 0, { emptyAttrs with rerankSummary := "alpha" }⟩

/-- A candidate whose summary is "beta", at distance 1. -/
def candB : Candidate := ⟨"B", 1, { emptyAttrs with rerankSummary := "beta" }⟩

/-- A cross-encoder stub that scores the document "alpha" as 1 and
everything else as 0. -/
def ceAB : CE := fun _ t => if t = "alpha" then 1 else 0

/-- A `Reranker` loaded with the `ceAB` cross-encoder. -/
def rA : Reranker := ⟨ceAB⟩

/-- An `EnhancedReranker` loaded with the `ceAB` cross-encoder. -/
def eA : EnhancedReranker := ⟨ceAB⟩

/-- A bare candidate with the given id. -/
def candN (i : String) : Candidate := ⟨i, 0, emptyAttrs⟩

/-- Eleven bare candidates with ids "1" … "11". -/
def cands11 : List Candidate :=
  [candN "1", candN "2", candN "3", candN "4", candN "5", candN "6",
   candN "7", candN "8", candN "9", candN "10", candN "11"]

/-! ## Helper lemmas -/

theorem foldl_min_le_init (l : List Rat) : ∀ a : Rat, l.foldl min a ≤ a := by
  induction l with
  | nil => intro a; exact le_refl a
  | cons x xs ih =>
    intro a
    exact le_trans (ih (min a x)) (min_le_left a x)

theorem foldl_min_le_mem {x : Rat} {l : List Rat} (h : x ∈ l) :
    ∀ a : Rat, l.foldl min a ≤ x := by
  induction l with
  | nil => cases h
  | cons y ys ih =>
    intro a
    rcases List.mem_cons.mp h with rfl | hy
    · exact le_trans (foldl_min_le_init ys (min a x)) (min_le_right a x)
    · exact ih hy (min a y)

theorem arrMin_le_of_mem {x : Rat} {l : List Rat} (h : x ∈ l) : arrMin l ≤ x := by
  cases l with
  | nil => cases h
  | cons y ys =>
    rcases List.mem_cons.mp h with rfl | hy
    · exact foldl_min_le_init ys x
    · exact foldl_min_le_mem hy y

theorem init_le_foldl_max (l : List Rat) : ∀ a : Rat, a ≤ l.foldl max a := by
  induction l with
  | nil => intro a; exact le_refl a
  | cons x xs ih =>
    intro a
    exact le_trans (le_max_left a x) (ih (max a x))

theorem mem_le_foldl_max {x : Rat} {l : List Rat} (h : x ∈ l) :
    ∀ a : Rat, x ≤ l.foldl max a := by
  induction l with
  | nil => cases h
  | cons y ys ih =>
    intro a
    rcases List.mem_cons.mp h with rfl | hy
    · exact le_trans (le_max_right a x) (init_le_foldl_max ys (max a x))
    · exact ih hy (max a y)

theorem le_arrMax_of_mem {x : Rat} {l : List Rat} (h : x ∈ l) : x ≤ arrMax l := by
  cases l with
  | nil => cases h
  | cons y ys =>
    rcases List.mem_cons.mp h with rfl | hy
    · exact init_le_foldl_max ys x
    · exact mem_le_foldl_max hy y

theorem sortByScore_perm (l : List Scored) : (sortByScore l).Perm l :=
  List.mergeSort_perm l _

theorem mem_sortByScore {s : Scored} {l : List Scored} :
    s ∈ sortByScore l ↔ s ∈ l :=
  List.mem_mergeSort

theorem sortByScore_sorted (l : List Scored) :
    (sortByScore l).Pairwise (fun a b => b.rerank_score ≤ a.rerank_score) := by
  have h := @List.sorted_mergeSort Scored
    (fun a b : Scored => decide (b.rerank_score ≤ a.rerank_score))
    (fun a b c h1 h2 => by
      simp only [decide_eq_true_iff] at h1 h2 ⊢
      exact le_trans h2 h1)
    (fun a b => by
      simp only [Bool.or_eq_true, decide_eq_true_iff]
      exact le_total b.rerank_score a.rerank_score)
    l
  exact h.imp (fun hab => of_decide_eq_true hab)

theorem combineScores_map (w1 w2 w3 : Rat) (fa fb fd : Candidate → Rat) :
    ∀ cs : List Candidate,
      combineScores w1 w2 w3 cs (cs.map fa) (cs.map fb) (cs.map fd) =
        cs.map (mkScored w1 w2 w3 fa fb fd) := by
  intro cs
  induction cs with
  | nil => rfl
  | cons c cs ih => simp [combineScores, mkScored, ih]

theorem rerankR_eq (self : Reranker) (q : String)
    (cands : List Candidate) (soft : List String) (uce : Bool) (w1 w2 w3 : Rat) :
    Reranker.rerank self q cands soft uce w1 w2 w3 =
      sortByScore (cands.map (mkScored w1 w2 w3 (ceFnR self q cands uce)
        (softFnR self soft) (distFn cands))) := by
  by_cases hc : cands.isEmpty
  · rw [List.isEmpty_iff.mp hc]
    simp [Reranker.rerank, sortByScore]
  · have hce : (if uce then
        minMaxNormalize (Reranker.score_with_cross_encoder self q cands)
      else cands.map fun _ => 1) = cands.map (ceFnR self q cands uce) := by
      cases uce with
      | false => exact List.map_congr_left fun c _ => rfl
      | true =>
        simp only [if_pos]
        unfold Reranker.score_with_cross_encoder minMaxNormalize
        by_cases h : arrMin (cands.map fun x => self.cross_encoder q (rerankTextR x)) <
            arrMax (cands.map fun x => self.cross_encoder q (rerankTextR x))
        · rw [if_pos h, List.map_map]
          exact List.map_congr_left (fun c _ => by simp [ceFnR, if_pos h])
        · rw [if_neg h]
          exact List.map_congr_left (fun c _ => by simp [ceFnR, if_neg h])
    have hsoft : (if !soft.isEmpty then
        cands.map (fun c => Reranker.score_soft_criteria self c soft)
      else cands.map fun _ => 1) = cands.map (softFnR self soft) := by
      by_cases h : soft.isEmpty
      · rw [h]
        exact List.map_congr_left fun c _ => by simp [softFnR, h]
      · rw [Bool.not_eq_true] at h
        rw [h]
        exact List.map_congr_left fun c _ => by simp [softFnR, h]
    have hdist : distanceScores (cands.map (·.distance)) =
        cands.map (distFn cands) := by
      unfold distanceScores
      by_cases h : arrMin (cands.map (·.distance)) < arrMax (cands.map (·.distance))
      · rw [if_pos h, List.map_map]
        exact List.map_congr_left (fun c _ => by simp [distFn, if_pos h])
      · rw [if_neg h, List.map_map]
        exact List.map_congr_left (fun c _ => by simp [distFn, if_neg h])
    unfold Reranker.rerank
    rw [if_neg hc, hce, hsoft, hdist]
    simp only [combineScores_map]

theorem rerankE_eq (self : EnhancedReranker) (q : String)
    (cands : List Candidate) (hard soft : List String) (uce : Bool)
    (w1 w2 w3 : Rat) :
    EnhancedReranker.rerank self q cands hard soft uce w1 w2 w3 =
      sortByScore ((filteredCands self cands hard).map
        (mkScored w1 w2 w3 (ceFnE self q (filteredCands self cands hard) uce)
          (softFnE self soft) (distFn (filteredCands self cands hard)))) := by
  by_cases hc : cands.isEmpty
  · rw [List.isEmpty_iff.mp hc]
    simp [EnhancedReranker.rerank, sortByScore, filteredCands]
  · have hstep : filteredCands self cands hard =
        (if !hard.isEmpty then
          cands.filter (fun c => self.check_hard_criteria c hard)
        else cands) := rfl
    by_cases hf : (filteredCands self cands hard).isEmpty
    · rw [List.isEmpty_iff.mp hf]
      unfold EnhancedReranker.rerank
      rw [if_neg hc, ← hstep, List.isEmpty_iff.mp hf]
      simp [sortByScore]
    · have hce : (if uce then
          minMaxNormalize ((filteredCands self cands hard).map
            (fun c => self.cross_encoder q (rerankTextE c)))
        else (filteredCands self cands hard).map fun _ => 1) =
          (filteredCands self cands hard).map
            (ceFnE self q (filteredCands self cands hard) uce) := by
        cases uce with
        | false => exact List.map_congr_left fun c _ => rfl
        | true =>
          simp only [if_pos]
          unfold minMaxNormalize
          by_cases h : arrMin ((filteredCands self cands hard).map
              fun x => self.cross_encoder q (rerankTextE x)) <
              arrMax ((filteredCands self cands hard).map
                fun x => self.cross_encoder q (rerankTextE x))
          · rw [if_pos h, List.map_map]
            exact List.map_congr_left (fun c _ => by simp [ceFnE, if_pos h])
          · rw [if_neg h]
            exact List.map_congr_left (fun c _ => by simp [ceFnE, if_neg h])
      have hsoft : (if !soft.isEmpty then
          (filteredCands self cands hard).map
            (fun c => (EnhancedReranker.score_soft_criteria_enhanced self c soft).1)
        else (filteredCands self cands hard).map fun _ => 1) =
          (filteredCands self cands hard).map (softFnE self soft) := by
        by_cases h : soft.isEmpty
        · rw [h]
          exact List.map_congr_left fun c _ => by simp [softFnE, h]
        · rw [Bool.not_eq_true] at h
          rw [h]
          exact List.map_congr_left fun c _ => by simp [softFnE, h]
      have hdist : distanceScores ((filteredCands self cands hard).map (·.distance)) =
          (filteredCands self cands hard).map (distFn (filteredCands self cands hard)) := by
        unfold distanceScores
        by_cases h : arrMin ((filteredCands self cands hard).map (·.distance)) <
            arrMax ((filteredCands self cands hard).map (·.distance))
        · rw [if_pos h, List.map_map]
          exact List.map_congr_left (fun c _ => by simp [distFn, if_pos h])
        · rw [if_neg h, List.map_map]
          exact List.map_congr_left (fun c _ => by simp [distFn, if_neg h])
      unfold EnhancedReranker.rerank
      rw [if_neg hc, ← hstep, if_neg hf, hce, hsoft, hdist]
      simp only [combineScores_map]

theorem mem_rerank_R {s : Scored} {self : Reranker} {q : String}
    {cands : List Candidate} {soft : List String} {uce : Bool} {w1 w2 w3 : Rat} :
    s ∈ Reranker.rerank self q cands soft uce w1 w2 w3 ↔
      ∃ c ∈ cands, s = mkScored w1 w2 w3 (ceFnR self q cands uce)
        (softFnR self soft) (distFn cands) c := by
  rw [rerankR_eq, mem_sortByScore, List.mem_map]
  constructor
  · rintro ⟨c, hc, rfl⟩; exact ⟨c, hc, rfl⟩
  · rintro ⟨c, hc, rfl⟩; exact ⟨c, hc, rfl⟩

theorem mem_rerank_E {s : Scored} {self : EnhancedReranker} {q : String}
    {cands : List Candidate} {hard soft : List String} {uce : Bool} {w1 w2 w3 : Rat} :
    s ∈ EnhancedReranker.rerank self q cands hard soft uce w1 w2 w3 ↔
      ∃ c ∈ filteredCands self cands hard,
        s = mkScored w1 w2 w3 (ceFnE self q (filteredCands self cands hard) uce)
          (softFnE self soft) (distFn (filteredCands self cands hard)) c := by
  rw [rerankE_eq, mem_sortByScore, List.mem_map]
  constructor
  · rintro ⟨c, hc, rfl⟩; exact ⟨c, hc, rfl⟩
  · rintro ⟨c, hc, rfl⟩; exact ⟨c, hc, rfl⟩

theorem rerank_R_cand_perm (self : Reranker) (q : String)
    (cands : List Candidate) (soft : List String) (uce : Bool) (w1 w2 w3 : Rat) :
    ((Reranker.rerank self q cands soft uce w1 w2 w3).map (·.cand)).Perm cands := by
  rw [rerankR_eq]
  have h := (sortByScore_perm (cands.map (mkScored w1 w2 w3
    (ceFnR self q cands uce) (softFnR self soft) (distFn cands)))).map (·.cand)
  rw [List.map_map] at h
  have h2 : cands.map ((fun s : Scored => s.cand) ∘ mkScored w1 w2 w3
      (ceFnR self q cands uce) (softFnR self soft) (distFn cands)) =
      cands.map id := List.map_congr_left fun c _ => rfl
  rw [h2, List.map_id] at h
  exact h

theorem rerank_E_cand_perm (self : EnhancedReranker) (q : String)
    (cands : List Candidate) (hard soft : List String) (uce : Bool) (w1 w2 w3 : Rat) :
    ((EnhancedReranker.rerank self q cands hard soft uce w1 w2 w3).map (·.cand)).Perm
      (filteredCands self cands hard) := by
  rw [rerankE_eq]
  have h := (sortByScore_perm ((filteredCands self cands hard).map (mkScored w1 w2 w3
    (ceFnE self q (filteredCands self cands hard) uce) (softFnE self soft)
    (distFn (filteredCands self cands hard))))).map (·.cand)
  rw [List.map_map] at h
  have h2 : (filteredCands self cands hard).map ((fun s : Scored => s.cand) ∘
      mkScored w1 w2 w3 (ceFnE self q (filteredCands self cands hard) uce)
      (softFnE self soft) (distFn (filteredCands self cands hard))) =
      (filteredCands self cands hard).map id := List.map_congr_left fun c _ => rfl
  rw [h2, List.map_id] at h
  exact h

/-- Elements of a list of per-criterion contributions are in `[0,1]`, so the
capped normalized sum is. -/
theorem sum_nonneg_of_forall_nonneg {l : List Rat} (h : ∀ x ∈ l, 0 ≤ x) :
    0 ≤ l.sum := by
  induction l with
  | nil => simp
  | cons x xs ih =>
    simp only [List.sum_cons]
    have hx := h x (List.mem_cons_self x xs)
    have hxs := ih (fun y hy => h y (List.mem_cons_of_mem x hy))
    linarith

theorem sum_le_length_of_forall_le_one {l : List Rat} (h : ∀ x ∈ l, x ≤ 1) :
    l.sum ≤ (l.length : Rat) := by
  induction l with
  | nil => simp
  | cons x xs ih =>
    simp only [List.sum_cons, List.length_cons]
    have hx := h x (List.mem_cons_self x xs)
    have hxs := ih (fun y hy => h y (List.mem_cons_of_mem x hy))
    push_cast
    linarith

theorem softCriterionScore_nonneg (attrs : Attributes) (criterion : String) :
    0 ≤ softCriterionScore attrs criterion := by
  unfold softCriterionScore
  dsimp only
  split_ifs <;> norm_num

theorem score_soft_criteria_nonneg (self : Reranker) (c : Candidate)
    (soft : List String) : 0 ≤ Reranker.score_soft_criteria self c soft := by
  unfold Reranker.score_soft_criteria
  dsimp only
  split_ifs with h
  · norm_num
  · apply le_min _ (by norm_num)
    apply div_nonneg
    · apply sum_nonneg_of_forall_nonneg
      intro x hx
      obtain ⟨cr, _, rfl⟩ := List.mem_map.mp hx
      exact softCriterionScore_nonneg _ _
    · positivity

theorem score_soft_criteria_le_one (self : Reranker) (c : Candidate)
    (soft : List String) : Reranker.score_soft_criteria self c soft ≤ 1 := by
  unfold Reranker.score_soft_criteria
  dsimp only
  split_ifs with h
  · exact le_refl 1
  · exact min_le_right _ 1

theorem score_soft_criteria_empty (self : Reranker) (c : Candidate) :
    Reranker.score_soft_criteria self c [] = 1 := rfl

theorem enhancedCriterionScore_nonneg (self : EnhancedReranker)
    (attrs : Attributes) (criterion : String) :
    0 ≤ enhancedCriterionScore self attrs criterion := by
  unfold enhancedCriterionScore
  dsimp only
  split_ifs with h
  · norm_num
  · apply le_min _ (by norm_num)
    apply div_nonneg
    · apply sum_nonneg_of_forall_nonneg
      intro x hx
      obtain ⟨k, _, rfl⟩ := List.mem_map.mp hx
      split_ifs <;> norm_num
    · positivity

theorem enhancedCriterionScore_le_one (self : EnhancedReranker)
    (attrs : Attributes) (criterion : String) :
    enhancedCriterionScore self attrs criterion ≤ 1 := by
  unfold enhancedCriterionScore
  dsimp only
  split_ifs with h
  · norm_num
  · exact min_le_right _ 1

theorem score_soft_criteria_enhanced_nonneg (self : EnhancedReranker)
    (c : Candidate) (soft : List String) :
    0 ≤ (EnhancedReranker.score_soft_criteria_enhanced self c soft).1 := by
  unfold EnhancedReranker.score_soft_criteria_enhanced
  dsimp only
  split_ifs with h
  · norm_num
  · apply div_nonneg
    · apply sum_nonneg_of_forall_nonneg
      intro x hx
      simp only [List.map_map, List.mem_map] at hx
      obtain ⟨cr, _, rfl⟩ := hx
      exact enhancedCriterionScore_nonneg _ _ _
    · positivity

theorem score_soft_criteria_enhanced_le_one (self : EnhancedReranker)
    (c : Candidate) (soft : List String) :
    (EnhancedReranker.score_soft_criteria_enhanced self c soft).1 ≤ 1 := by
  unfold EnhancedReranker.score_soft_criteria_enhanced
  dsimp only
  split_ifs with h
  · norm_num
  · rw [div_le_one]
    · apply le_trans (sum_le_length_of_forall_le_one ?_)
      · norm_num
      · intro x hx
        simp only [List.map_map, List.mem_map] at hx
        obtain ⟨cr, _, rfl⟩ := hx
        exact enhancedCriterionScore_le_one _ _ _
    · have : ¬ (((dedupFirst soft).map fun cr =>
          (cr, enhancedCriterionScore self c.attrs cr)).map (·.2)).isEmpty := h
      rw [Bool.not_eq_true, List.isEmpty_eq_false_iff_exists_mem] at this
      obtain ⟨x, hx⟩ := this
      have : 0 < (((dedupFirst soft).map fun cr =>
          (cr, enhancedCriterionScore self c.attrs cr)).map (·.2)).length :=
        List.length_pos_of_mem hx
      exact_mod_cast this

theorem softFnR_bounds (self : Reranker) (soft : List String) (c : Candidate) :
    0 ≤ softFnR self soft c ∧ softFnR self soft c ≤ 1 := by
  unfold softFnR
  split_ifs with h
  · exact ⟨score_soft_criteria_nonneg self c soft, score_soft_criteria_le_one self c soft⟩
  · norm_num

theorem softFnE_bounds (self : EnhancedReranker) (soft : List String) (c : Candidate) :
    0 ≤ softFnE self soft c ∧ softFnE self soft c ≤ 1 := by
  unfold softFnE
  split_ifs with h
  · exact ⟨score_soft_criteria_enhanced_nonneg self c soft,
      score_soft_criteria_enhanced_le_one self c soft⟩
  · norm_num

theorem distFn_bounds {cands : List Candidate} {c : Candidate} (hc : c ∈ cands) :
    0 ≤ distFn cands c ∧ distFn cands c ≤ 1 := by
  unfold distFn
  split_ifs with h
  · have hmem : c.distance ∈ cands.map (·.distance) := List.mem_map_of_mem _ hc
    have hlo := arrMin_le_of_mem hmem
    have hhi := le_arrMax_of_mem hmem
    have hD : 0 < arrMax (cands.map (·.distance)) - arrMin (cands.map (·.distance)) :=
      sub_pos.mpr h
    have hq0 : 0 ≤ (c.distance - arrMin (cands.map (·.distance))) /
        (arrMax (cands.map (·.distance)) - arrMin (cands.map (·.distance))) :=
      div_nonneg (sub_nonneg.mpr hlo) hD.le
    have hq1 : (c.distance - arrMin (cands.map (·.distance))) /
        (arrMax (cands.map (·.distance)) - arrMin (cands.map (·.distance))) ≤ 1 :=
      (div_le_one hD).mpr (sub_le_sub_right hhi _)
    constructor <;> linarith
  · norm_num

theorem distFn_at_min {cands : List Candidate} {c : Candidate}
    (h : arrMin (cands.map (·.distance)) < arrMax (cands.map (·.distance)))
    (hmin : c.distance = arrMin (cands.map (·.distance))) :
    distFn cands c = 1 := by
  unfold distFn
  rw [if_pos h, hmin]
  simp

theorem distFn_at_max {cands : List Candidate} {c : Candidate}
    (h : arrMin (cands.map (·.distance)) < arrMax (cands.map (·.distance)))
    (hmax : c.distance = arrMax (cands.map (·.distance))) :
    distFn cands c = 0 := by
  unfold distFn
  rw [if_pos h, hmax]
  rw [div_self (ne_of_gt (sub_pos.mpr h))]
  norm_num

theorem distFn_antimono {cands : List Candidate} {c d : Candidate}
    (hcd : c.distance ≤ d.distance) : distFn cands d ≤ distFn cands c := by
  unfold distFn
  split_ifs with h
  · have hD : 0 < arrMax (cands.map (·.distance)) - arrMin (cands.map (·.distance)) :=
      sub_pos.mpr h
    have := (div_le_div_iff_of_pos_right hD).mpr (sub_le_sub_right hcd
      (arrMin (cands.map (·.distance))))
    linarith
  · exact le_refl 1

theorem distFn_all_equal {cands : List Candidate} (c : Candidate)
    (h : ¬ arrMin (cands.map (·.distance)) < arrMax (cands.map (·.distance))) :
    distFn cands c = 1 := by
  unfold distFn
  rw [if_neg h]

theorem ceFnR_bounds {self : Reranker} {q : String} {cands : List Candidate}
    {c : Candidate} (hc : c ∈ cands)
    (h : arrMin (cands.map fun x => self.cross_encoder q (rerankTextR x)) <
      arrMax (cands.map fun x => self.cross_encoder q (rerankTextR x))) :
    0 ≤ ceFnR self q cands true c ∧ ceFnR self q cands true c ≤ 1 := by
  unfold ceFnR
  rw [if_pos rfl, if_pos h]
  have hmem : self.cross_encoder q (rerankTextR c) ∈
      cands.map fun x => self.cross_encoder q (rerankTextR x) :=
    List.mem_map_of_mem _ hc
  have hlo := arrMin_le_of_mem hmem
  have hhi := le_arrMax_of_mem hmem
  have hD : 0 < arrMax (cands.map fun x => self.cross_encoder q (rerankTextR x)) -
      arrMin (cands.map fun x => self.cross_encoder q (rerankTextR x)) :=
    sub_pos.mpr h
  exact ⟨div_nonneg (sub_nonneg.mpr hlo) hD.le,
    (div_le_one hD).mpr (sub_le_sub_right hhi _)⟩

theorem ceFnE_bounds {self : EnhancedReranker} {q : String} {cands : List Candidate}
    {c : Candidate} (hc : c ∈ cands)
    (h : arrMin (cands.map fun x => self.cross_encoder q (rerankTextE x)) <
      arrMax (cands.map fun x => self.cross_encoder q (rerankTextE x))) :
    0 ≤ ceFnE self q cands true c ∧ ceFnE self q cands true c ≤ 1 := by
  unfold ceFnE
  rw [if_pos rfl, if_pos h]
  have hmem : self.cross_encoder q (rerankTextE c) ∈
      cands.map fun x => self.cross_encoder q (rerankTextE x) :=
    List.mem_map_of_mem _ hc
  have hlo := arrMin_le_of_mem hmem
  have hhi := le_arrMax_of_mem hmem
  have hD : 0 < arrMax (cands.map fun x => self.cross_encoder q (rerankTextE x)) -
      arrMin (cands.map fun x => self.cross_encoder q (rerankTextE x)) :=
    sub_pos.mpr h
  exact ⟨div_nonneg (sub_nonneg.mpr hlo) hD.le,
    (div_le_one hD).mpr (sub_le_sub_right hhi _)⟩

/-! ## Claims -/

/-- C1 (counterexample): the claim says every candidate of a non-empty input
list receives a final `rerank_score` that is a linear combination of four
component scores, one of them a hard-filter score.  On this concrete input
(`candJD` holds a JD degree, `candPlain` does not, and the hard criterion is
"JD degree"), `EnhancedReranker.rerank` removes `candPlain` instead of
scoring it: the output names only candidate `"1"`, so candidate `"2"`
receives no rerank score at all, and hard criteria enter as a boolean filter,
not as a fourth scalar summand. -/
theorem C1_counterexample :
    (EnhancedReranker.rerank ⟨constCE 0⟩ "q" [candJD, candPlain] ["JD degree"] []
      true (3/10) (5/10) (2/10)).map (·.cand.id) = ["1"] := by
  rw [rerankE_eq]
  have hf : filteredCands ⟨constCE 0⟩ [candJD, candPlain] ["JD degree"] = [candJD] := by
    decide
  rw [hf]
  simp [sortByScore, mkScored, candJD]

/-- C1 (amended): in both rerankers every returned candidate's
`rerank_score` is the weighted sum of exactly three per-candidate scalar
component scores — the (normalized) cross-encoder score, the soft-criteria
score, and the distance score — with the given fixed weights; hard criteria
act as a boolean pre-filter, not as a summand. -/
theorem C1_amended :
    (∀ (self : Reranker) (q : String) (cands : List Candidate)
      (soft : List String) (uce : Bool) (w1 w2 w3 : Rat),
      (Reranker.rerank self q cands soft uce w1 w2 w3).Forall fun s =>
        s.rerank_score = w1 * s.ce_score + w2 * s.soft_score + w3 * s.distance_score) ∧
    (∀ (self : EnhancedReranker) (q : String) (cands : List Candidate)
      (hard soft : List String) (uce : Bool) (w1 w2 w3 : Rat),
      (EnhancedReranker.rerank self q cands hard soft uce w1 w2 w3).Forall fun s =>
        s.rerank_score = w1 * s.ce_score + w2 * s.soft_score + w3 * s.distance_score) := by
  constructor
  · intro self q cands soft uce w1 w2 w3
    rw [List.forall_iff_forall_mem]
    intro s hs
    obtain ⟨c, _, rfl⟩ := mem_rerank_R.mp hs
    rfl
  · intro self q cands hard soft uce w1 w2 w3
    rw [List.forall_iff_forall_mem]
    intro s hs
    obtain ⟨c, _, rfl⟩ := mem_rerank_E.mp hs
    rfl

/-- C3 (confirmed): the candidates of the list returned by `Reranker.rerank`
are a permutation of the input candidates, and the candidates returned by
`EnhancedReranker.rerank` are a permutation of the input candidates that
survive hard-criteria filtering; both outputs are ordered by non-increasing
`rerank_score`.  The sort adds, duplicates and drops nothing. -/
theorem C3_rerank_perm_sorted :
    (∀ (self : Reranker) (q : String) (cands : List Candidate)
      (soft : List String) (uce : Bool) (w1 w2 w3 : Rat),
      ((Reranker.rerank self q cands soft uce w1 w2 w3).map (·.cand)).Perm cands ∧
      (Reranker.rerank self q cands soft uce w1 w2 w3).Pairwise
        (fun a b => b.rerank_score ≤ a.rerank_score)) ∧
    (∀ (self : EnhancedReranker) (q : String) (cands : List Candidate)
      (hard soft : List String) (uce : Bool) (w1 w2 w3 : Rat),
      ((EnhancedReranker.rerank self q cands hard soft uce w1 w2 w3).map (·.cand)).Perm
        (filteredCands self cands hard) ∧
      (EnhancedReranker.rerank self q cands hard soft uce w1 w2 w3).Pairwise
        (fun a b => b.rerank_score ≤ a.rerank_score)) := by
  constructor
  · intro self q cands soft uce w1 w2 w3
    refine ⟨rerank_R_cand_perm self q cands soft uce w1 w2 w3, ?_⟩
    rw [rerankR_eq]
    exact sortByScore_sorted _
  · intro self q cands hard soft uce w1 w2 w3
    refine ⟨rerank_E_cand_perm self q cands hard soft uce w1 w2 w3, ?_⟩
    rw [rerankE_eq]
    exact sortByScore_sorted _

/-- C5 (confirmed): `SearchPipeline.search` is exactly the truncation to the
first `final_k` items of the ranked list produced by the preceding stages
(embed → retrieve → filter/score → sort, captured by `searchRanked`), and it
returns at most `final_k` candidates. -/
theorem C5_pipeline_truncate :
    ∀ (self : SearchPipeline) (q : String) (hard soft : List String)
      (filters : Option Filters),
      SearchPipeline.search self q hard soft filters =
        (searchRanked self q hard soft filters).take self.final_k ∧
      (SearchPipeline.search self q hard soft filters).length ≤ self.final_k := by
  intro self q hard soft filters
  have heq : SearchPipeline.search self q hard soft filters =
      (searchRanked self q hard soft filters).take self.final_k := by
    unfold SearchPipeline.search searchRanked
    by_cases h : (self.tpuf_query (self.embed_query q) self.initial_k filters).isEmpty
    · rw [if_pos h, if_pos h]
      simp
    · rw [if_neg h, if_neg h]
  refine ⟨heq, ?_⟩
  rw [heq, List.length_take]
  exact Nat.min_le_left _ _

/-- C6 (confirmed): soft criteria never remove a candidate — the candidates
returned by `Reranker.rerank` are a permutation of the input for every list
of soft criteria; every per-candidate soft-criteria score (in both rerankers,
and as returned by `Reranker.score_soft_criteria` itself) lies in `[0,1]`;
and `Reranker.score_soft_criteria` returns exactly `1` on an empty
soft-criteria list. -/
theorem C6_soft_criteria :
    (∀ (self : Reranker) (q : String) (cands : List Candidate)
      (soft : List String) (uce : Bool) (w1 w2 w3 : Rat),
      ((Reranker.rerank self q cands soft uce w1 w2 w3).map (·.cand)).Perm cands ∧
      (Reranker.rerank self q cands soft uce w1 w2 w3).Forall fun s =>
        0 ≤ s.soft_score ∧ s.soft_score ≤ 1) ∧
    (∀ (self : Reranker) (c : Candidate) (soft : List String),
      0 ≤ Reranker.score_soft_criteria self c soft ∧
      Reranker.score_soft_criteria self c soft ≤ 1) ∧
    (∀ (self : Reranker) (c : Candidate),
      Reranker.score_soft_criteria self c [] = 1) ∧
    (∀ (self : EnhancedReranker) (q : String) (cands : List Candidate)
      (hard soft : List String) (uce : Bool) (w1 w2 w3 : Rat),
      (EnhancedReranker.rerank self q cands hard soft uce w1 w2 w3).Forall fun s =>
        0 ≤ s.soft_score ∧ s.soft_score ≤ 1) := by
  refine ⟨?_, ?_, ?_, ?_⟩
  · intro self q cands soft uce w1 w2 w3
    refine ⟨rerank_R_cand_perm self q cands soft uce w1 w2 w3, ?_⟩
    rw [List.forall_iff_forall_mem]
    intro s hs
    obtain ⟨c, _, rfl⟩ := mem_rerank_R.mp hs
    exact softFnR_bounds self soft c
  · intro self c soft
    exact ⟨score_soft_criteria_nonneg self c soft, score_soft_criteria_le_one self c soft⟩
  · intro self c
    exact score_soft_criteria_empty self c
  · intro self q cands hard soft uce w1 w2 w3
    rw [List.forall_iff_forall_mem]
    intro s hs
    obtain ⟨c, _, rfl⟩ := mem_rerank_E.mp hs
    exact softFnE_bounds self soft c

/-- C7 (confirmed): the three per-candidate scorers are pure functions of
their candidate and criteria arguments alone.  In the embedding the whole
mutable state of a reranker object is its `cross_encoder` field; the results
of `Reranker.score_soft_criteria`, `EnhancedReranker.check_hard_criteria` and
`EnhancedReranker.score_soft_criteria_enhanced` are identical for any two
object states, so equal arguments always yield equal results and no call
reads (or, being pure values, writes) the object's state. -/
theorem C7_scorers_stateless :
    ∀ (r r' : Reranker) (e e' : EnhancedReranker) (c : Candidate)
      (soft hard : List String),
      Reranker.score_soft_criteria r c soft = Reranker.score_soft_criteria r' c soft ∧
      EnhancedReranker.check_hard_criteria e c hard =
        EnhancedReranker.check_hard_criteria e' c hard ∧
      EnhancedReranker.score_soft_criteria_enhanced e c soft =
        EnhancedReranker.score_soft_criteria_enhanced e' c soft := by
  intro r r' e e' c soft hard
  exact ⟨rfl, rfl, rfl⟩

/-- C10 (confirmed): degenerate inputs yield `[]`: both rerankers on an empty
candidate list, `EnhancedReranker.rerank` when hard-criteria filtering
removes every candidate, and `SearchPipeline.search` when retrieval returns
nothing. -/
theorem C10_degenerate_empty :
    (∀ (self : Reranker) (q : String) (soft : List String) (uce : Bool)
      (w1 w2 w3 : Rat), Reranker.rerank self q [] soft uce w1 w2 w3 = []) ∧
    (∀ (self : EnhancedReranker) (q : String) (hard soft : List String)
      (uce : Bool) (w1 w2 w3 : Rat),
      EnhancedReranker.rerank self q [] hard soft uce w1 w2 w3 = []) ∧
    (∀ (self : EnhancedReranker) (q : String) (cands : List Candidate)
      (hard soft : List String) (uce : Bool) (w1 w2 w3 : Rat),
      hard ≠ [] →
      cands.filter (fun c => EnhancedReranker.check_hard_criteria self c hard) = [] →
      EnhancedReranker.rerank self q cands hard soft uce w1 w2 w3 = []) ∧
    (∀ (self : SearchPipeline) (q : String) (hard soft : List String)
      (filters : Option Filters),
      self.tpuf_query (self.embed_query q) self.initial_k filters = [] →
      SearchPipeline.search self q hard soft filters = []) := by
  refine ⟨?_, ?_, ?_, ?_⟩
  · intro self q soft uce w1 w2 w3
    simp [Reranker.rerank]
  · intro self q hard soft uce w1 w2 w3
    simp [EnhancedReranker.rerank]
  · intro self q cands hard soft uce w1 w2 w3 hhard hfil
    rw [rerankE_eq]
    have hf : filteredCands self cands hard = [] := by
      unfold filteredCands
      rw [if_pos]
      · exact hfil
      · simp [hhard]
    rw [hf]
    simp [sortByScore]
  · intro self q hard soft filters hret
    simp [SearchPipeline.search, hret]

/-- When re-ranking is enabled with the enhanced reranker and retrieval
returned more than one candidate, `SearchPipeline.search` is the truncated
image of `EnhancedReranker.rerank` on the retrieved candidates. -/
theorem search_eq_enhanced (self : SearchPipeline) (q : String)
    (hard soft : List String) (filters : Option Filters)
    (hur : self.use_reranking = true) (huer : self.use_enhanced_reranker = true)
    (hlen : 1 < (self.tpuf_query (self.embed_query q) self.initial_k filters).length) :
    SearchPipeline.search self q hard soft filters =
      ((EnhancedReranker.rerank ⟨self.cross_encoder⟩ q
        (self.tpuf_query (self.embed_query q) self.initial_k filters)
        hard soft true (3/10) (5/10) (2/10)).map (·.cand)).take self.final_k := by
  have hne : (self.tpuf_query (self.embed_query q) self.initial_k filters).isEmpty = false := by
    rcases h : self.tpuf_query (self.embed_query q) self.initial_k filters with _ | ⟨x, xs⟩
    · rw [h] at hlen
      simp at hlen
    · rfl
  simp [SearchPipeline.search, hne, hur, huer, hlen]

/-- C2 (counterexample): the claim asserts hard criteria are enforced for
every configuration of `SearchPipeline.search` given hard criteria.  With
the default configuration, when retrieval returns exactly one candidate the
pipeline skips re-ranking entirely (`len(results) > 1` fails), so a
candidate failing the "JD degree" hard criterion is returned anyway. -/
theorem C2_counterexample :
    SearchPipeline.search pipeOne "q" ["JD degree"] [] none = [candPlain] ∧
    EnhancedReranker.check_hard_criteria ⟨pipeOne.cross_encoder⟩ candPlain
      ["JD degree"] = false := by
  exact ⟨rfl, by decide⟩

/-- C2 (amended): when the pipeline is configured to re-rank with the
enhanced reranker, retrieval returns more than one candidate, and a
non-empty hard-criteria list is supplied, every candidate in the returned
result set satisfies all hard criteria (as decided by
`EnhancedReranker.check_hard_criteria`); failing candidates were removed
before scoring.  With other configurations (re-ranking disabled, the plain
reranker, or at most one retrieved candidate) the pipeline does not enforce
hard criteria. -/
theorem C2_amended :
    ∀ (self : SearchPipeline) (q : String) (hard soft : List String)
      (filters : Option Filters),
      self.use_reranking = true → self.use_enhanced_reranker = true →
      hard ≠ [] →
      1 < (self.tpuf_query (self.embed_query q) self.initial_k filters).length →
      (SearchPipeline.search self q hard soft filters).all
        (fun c => EnhancedReranker.check_hard_criteria ⟨self.cross_encoder⟩ c hard) = true := by
  intro self q hard soft filters hur huer hhard hlen
  rw [search_eq_enhanced self q hard soft filters hur huer hlen, List.all_eq_true]
  intro c hc
  have hc2 := List.mem_of_mem_take hc
  obtain ⟨s, hs, rfl⟩ := List.mem_map.mp hc2
  obtain ⟨c', hc', rfl⟩ := mem_rerank_E.mp hs
  have : c' ∈ (self.tpuf_query (self.embed_query q) self.initial_k filters).filter
      (fun x => EnhancedReranker.check_hard_criteria ⟨self.cross_encoder⟩ x hard) := by
    have hb : hard.isEmpty = false := by
      rcases hard with _ | ⟨x, xs⟩
      · exact absurd rfl hhard
      · rfl
    unfold filteredCands at hc'
    rw [hb] at hc'
    exact hc'
  exact (List.mem_filter.mp this).2

/-- C4 (counterexample): the claim asserts every per-candidate cross-encoder
score lies in `[0,1]` after normalization, including when all raw values of
the signal are equal.  On a single candidate the raw cross-encoder scores are
all equal, `Reranker.rerank` leaves them unnormalized, and a raw score of 2
is returned as `ce_score = 2 ∉ [0,1]`. -/
theorem C4_counterexample :
    ¬ ((Reranker.rerank ⟨constCE 2⟩ "q" [candPlain] [] true (6/10) (2/10)
      (2/10)).Forall fun s => 0 ≤ s.ce_score ∧ s.ce_score ≤ 1) := by
  intro h
  rw [rerankR_eq] at h
  have h1 : ((1 : Rat) < 2) := by norm_num
  rw [List.forall_iff_forall_mem] at h
  have hm : mkScored (6/10) (2/10) (2/10)
      (ceFnR ⟨constCE 2⟩ "q" [candPlain] true) (softFnR ⟨constCE 2⟩ [])
      (distFn [candPlain]) candPlain ∈
      sortByScore ([candPlain].map (mkScored (6/10) (2/10) (2/10)
        (ceFnR ⟨constCE 2⟩ "q" [candPlain] true) (softFnR ⟨constCE 2⟩ [])
        (distFn [candPlain]))) := by
    rw [mem_sortByScore]
    simp
  have := (h _ hm).2
  have hce : ceFnR ⟨constCE 2⟩ "q" [candPlain] true candPlain = 2 := by
    unfold ceFnR
    rw [if_pos rfl, if_neg (by decide)]
    rfl
  rw [show (mkScored (6/10) (2/10) (2/10)
      (ceFnR ⟨constCE 2⟩ "q" [candPlain] true) (softFnR ⟨constCE 2⟩ [])
      (distFn [candPlain]) candPlain).ce_score =
      ceFnR ⟨constCE 2⟩ "q" [candPlain] true candPlain from rfl, hce] at this
  exact absurd this (not_le.mpr h1)

/-- C4 (amended): in both rerankers every distance score lies in `[0,1]`
(equal distances give every candidate distance score 1); the normalized
cross-encoder scores lie in `[0,1]` whenever the raw cross-encoder scores of
the scored batch are not all equal (when they are all equal the raw scores
are left unnormalized and may lie outside `[0,1]`); and when the distances
are not all equal the candidate at the minimum raw distance scores 1, the
candidate at the maximum scores 0, and the distance score is anti-monotone
in the raw distance.  For `EnhancedReranker.rerank` the scored batch is the
hard-criteria-filtered list. -/
theorem C4_amended :
    (∀ (self : Reranker) (q : String) (cands : List Candidate)
      (soft : List String) (uce : Bool) (w1 w2 w3 : Rat),
      ((Reranker.rerank self q cands soft uce w1 w2 w3).Forall fun s =>
        0 ≤ s.distance_score ∧ s.distance_score ≤ 1) ∧
      (arrMin (cands.map fun x => self.cross_encoder q (rerankTextR x)) <
          arrMax (cands.map fun x => self.cross_encoder q (rerankTextR x)) →
        (Reranker.rerank self q cands soft true w1 w2 w3).Forall fun s =>
          0 ≤ s.ce_score ∧ s.ce_score ≤ 1) ∧
      (arrMin (cands.map (·.distance)) < arrMax (cands.map (·.distance)) →
        (Reranker.rerank self q cands soft uce w1 w2 w3).Forall fun s =>
          (s.cand.distance = arrMin (cands.map (·.distance)) →
            s.distance_score = 1) ∧
          (s.cand.distance = arrMax (cands.map (·.distance)) →
            s.distance_score = 0)) ∧
      ((Reranker.rerank self q cands soft uce w1 w2 w3).Forall fun s =>
        (Reranker.rerank self q cands soft uce w1 w2 w3).Forall fun t =>
          s.cand.distance ≤ t.cand.distance →
            t.distance_score ≤ s.distance_score) ∧
      (¬ arrMin (cands.map (·.distance)) < arrMax (cands.map (·.distance)) →
        (Reranker.rerank self q cands soft uce w1 w2 w3).Forall fun s =>
          s.distance_score = 1)) ∧
    (∀ (self : EnhancedReranker) (q : String) (cands : List Candidate)
      (hard soft : List String) (uce : Bool) (w1 w2 w3 : Rat),
      ((EnhancedReranker.rerank self q cands hard soft uce w1 w2 w3).Forall fun s =>
        0 ≤ s.distance_score ∧ s.distance_score ≤ 1) ∧
      (arrMin ((filteredCands self cands hard).map
          fun x => self.cross_encoder q (rerankTextE x)) <
          arrMax ((filteredCands self cands hard).map
            fun x => self.cross_encoder q (rerankTextE x)) →
        (EnhancedReranker.rerank self q cands hard soft true w1 w2 w3).Forall fun s =>
          0 ≤ s.ce_score ∧ s.ce_score ≤ 1) ∧
      (arrMin ((filteredCands self cands hard).map (·.distance)) <
          arrMax ((filteredCands self cands hard).map (·.distance)) →
        (EnhancedReranker.rerank self q cands hard soft uce w1 w2 w3).Forall fun s =>
          (s.cand.distance = arrMin ((filteredCands self cands hard).map (·.distance)) →
            s.distance_score = 1) ∧
          (s.cand.distance = arrMax ((filteredCands self cands hard).map (·.distance)) →
            s.distance_score = 0)) ∧
      ((EnhancedReranker.rerank self q cands hard soft uce w1 w2 w3).Forall fun s =>
        (EnhancedReranker.rerank self q cands hard soft uce w1 w2 w3).Forall fun t =>
          s.cand.distance ≤ t.cand.distance →
            t.distance_score ≤ s.distance_score) ∧
      (¬ arrMin ((filteredCands self cands hard).map (·.distance)) <
          arrMax ((filteredCands self cands hard).map (·.distance)) →
        (EnhancedReranker.rerank self q cands hard soft uce w1 w2 w3).Forall fun s =>
          s.distance_score = 1)) := by
  constructor
  · intro self q cands soft uce w1 w2 w3
    refine ⟨?_, ?_, ?_, ?_, ?_⟩
    · rw [List.forall_iff_forall_mem]
      intro s hs
      obtain ⟨c, hc, rfl⟩ := mem_rerank_R.mp hs
      exact distFn_bounds hc
    · intro h
      rw [List.forall_iff_forall_mem]
      intro s hs
      obtain ⟨c, hc, rfl⟩ := mem_rerank_R.mp hs
      exact ceFnR_bounds hc h
    · intro h
      rw [List.forall_iff_forall_mem]
      intro s hs
      obtain ⟨c, hc, rfl⟩ := mem_rerank_R.mp hs
      exact ⟨fun hmin => distFn_at_min h hmin, fun hmax => distFn_at_max h hmax⟩
    · rw [List.forall_iff_forall_mem]
      intro s hs
      rw [List.forall_iff_forall_mem]
      intro t ht
      obtain ⟨c, hc, rfl⟩ := mem_rerank_R.mp hs
      obtain ⟨d, hd, rfl⟩ := mem_rerank_R.mp ht
      exact fun hcd => distFn_antimono hcd
    · intro h
      rw [List.forall_iff_forall_mem]
      intro s hs
      obtain ⟨c, hc, rfl⟩ := mem_rerank_R.mp hs
      exact distFn_all_equal c h
  · intro self q cands hard soft uce w1 w2 w3
    refine ⟨?_, ?_, ?_, ?_, ?_⟩
    · rw [List.forall_iff_forall_mem]
      intro s hs
      obtain ⟨c, hc, rfl⟩ := mem_rerank_E.mp hs
      exact distFn_bounds hc
    · intro h
      rw [List.forall_iff_forall_mem]
      intro s hs
      obtain ⟨c, hc, rfl⟩ := mem_rerank_E.mp hs
      exact ceFnE_bounds hc h
    · intro h
      rw [List.forall_iff_forall_mem]
      intro s hs
      obtain ⟨c, hc, rfl⟩ := mem_rerank_E.mp hs
      exact ⟨fun hmin => distFn_at_min h hmin, fun hmax => distFn_at_max h hmax⟩
    · rw [List.forall_iff_forall_mem]
      intro s hs
      rw [List.forall_iff_forall_mem]
      intro t ht
      obtain ⟨c, hc, rfl⟩ := mem_rerank_E.mp hs
      obtain ⟨d, hd, rfl⟩ := mem_rerank_E.mp ht
      exact fun hcd => distFn_antimono hcd
    · intro h
      rw [List.forall_iff_forall_mem]
      intro s hs
      obtain ⟨c, hc, rfl⟩ := mem_rerank_E.mp hs
      exact distFn_all_equal c h

/-- C8 (counterexample): the claim says `evaluate_from_results` submits
exactly the `_id` fields of the first `top_k` results.  With eleven results
and `top_k = 11`, it submits only the first ten IDs: `evaluate` truncates the
eleven extracted IDs to ten, so the submitted list differs from the first
`top_k` IDs. -/
theorem C8_counterexample :
    EvaluationClient.evaluate_from_results "c.yml" cands11 11 =
      .ok ⟨"c.yml", ["1", "2", "3", "4", "5", "6", "7", "8", "9", "10"]⟩ ∧
    (cands11.take 11).map (·.id) ≠
      ["1", "2", "3", "4", "5", "6", "7", "8", "9", "10"] := by
  exact ⟨rfl, by decide⟩

/-- C8 (amended): `EvaluationClient.evaluate` errors (`ValueError`) exactly
when the ID list is empty, and otherwise submits the first
`min(length, 10)` IDs in their given order; `evaluate_from_results` extracts
the `_id` fields of the first `top_k` results in order and hence submits the
first `min(top_k, 10)` of them. -/
theorem C8_amended :
    ∀ (cp : String) (ids : List String),
      (isErr (EvaluationClient.evaluate cp ids) = true ↔ ids = []) ∧
      (ids ≠ [] → EvaluationClient.evaluate cp ids = .ok ⟨cp, ids.take 10⟩) ∧
      ∀ (results : List Candidate) (k : Nat),
        EvaluationClient.evaluate_from_results cp results k =
          EvaluationClient.evaluate cp ((results.take k).map (·.id)) ∧
        (results.take k ≠ [] →
          EvaluationClient.evaluate_from_results cp results k =
            .ok ⟨cp, (results.take (min k 10)).map (·.id)⟩) := by
  intro cp ids
  have hmain : ∀ l : List String, l ≠ [] →
      EvaluationClient.evaluate cp l = .ok ⟨cp, l.take 10⟩ := by
    intro l hl
    unfold EvaluationClient.evaluate
    have hne : l.isEmpty = false := by
      rcases l with _ | ⟨x, xs⟩
      · exact absurd rfl hl
      · rfl
    rw [hne]
    simp only [Bool.false_eq_true, if_false]
    by_cases h10 : 10 < l.length
    · rw [if_pos h10]
    · rw [if_neg h10, List.take_of_length_le (Nat.le_of_not_lt h10)]
  refine ⟨?_, hmain ids, ?_⟩
  · unfold EvaluationClient.evaluate
    rcases ids with _ | ⟨x, xs⟩
    · simp [isErr]
    · simp [isErr]
  · intro results k
    refine ⟨rfl, ?_⟩
    intro hne
    have hne2 : (results.take k).map (·.id) ≠ [] := by
      intro h
      exact hne (List.map_eq_nil_iff.mp h)
    unfold EvaluationClient.evaluate_from_results
    rw [hmain _ hne2, ← List.map_take, List.take_take, Nat.min_comm]

/-- C9 (counterexample): the claim says `parse_experience_years` chooses the
largest bucket that is less than or equal to the first parsed number.  For
the input `"0"` the parsed number is 0, no bucket is ≤ 0 (`claimedBucket 0`
is `none`), yet the code returns bucket `"1"`. -/
theorem C9_counterexample :
    FilterBuilder.parse_experience_years "0" = some "1" ∧
    claimedBucket 0 = none := by
  exact ⟨by decide, by decide⟩

/-- C9 (amended): `parse_experience_years` returns `none` exactly when the
string contains no digits, and otherwise one of the buckets
`"1"`, `"3"`, `"5"`, `"10"`: the largest bucket ≤ the first parsed number
when that number is at least 1 (numbers ≥ 10 map to `"10"`), and `"1"` also
when the parsed number is 0.  When parsing succeeds,
`build_years_filter` returns an `In`-filter on `{field_type}_years` whose
bucket list is non-empty and contains exactly the buckets numerically ≥ the
parsed bucket. -/
theorem C9_amended :
    ∀ (s : String),
      (FilterBuilder.parse_experience_years s = none ↔ firstNumber s.data = none) ∧
      (∀ n : Nat, firstNumber s.data = some n →
        ∃ b : String, FilterBuilder.parse_experience_years s = some b ∧
          b ∈ (["1", "3", "5", "10"] : List String) ∧
          (1 ≤ n → claimedBucket n = some (digitsToNat b.data)) ∧
          (n = 0 → b = "1") ∧
          (∀ ft : String, FilterBuilder.build_years_filter s ft =
            some (ft ++ "_years",
              (["1", "3", "5", "10"] : List String).filter
                (fun x => digitsToNat b.data ≤ digitsToNat x.data))) ∧
          (["1", "3", "5", "10"] : List String).filter
            (fun x => digitsToNat b.data ≤ digitsToNat x.data) ≠ []) := by
  intro s
  constructor
  · cases h : firstNumber s.data <;>
      simp [FilterBuilder.parse_experience_years, h]
  · intro n hn
    by_cases h10 : 10 ≤ n
    · have hp : FilterBuilder.parse_experience_years s = some "10" := by
        simp [FilterBuilder.parse_experience_years, hn, h10]
      refine ⟨"10", hp, by decide, ?_, ?_, ?_, by decide⟩
      · intro _
        have c1 : 1 ≤ n := by omega
        have c3 : 3 ≤ n := by omega
        have c5 : 5 ≤ n := by omega
        have hd : digitsToNat "10".data = 10 := by decide
        rw [hd]
        simp [claimedBucket, List.filter, c1, c3, c5, h10]
      · intro h0
        omega
      · intro ft
        simp [FilterBuilder.build_years_filter, hp]
    · by_cases h5 : 5 ≤ n
      · have hp : FilterBuilder.parse_experience_years s = some "5" := by
          simp [FilterBuilder.parse_experience_years, hn, h10, h5]
        refine ⟨"5", hp, by decide, ?_, ?_, ?_, by decide⟩
        · intro _
          have c1 : 1 ≤ n := by omega
          have c3 : 3 ≤ n := by omega
          have hd : digitsToNat "5".data = 5 := by decide
          rw [hd]
          simp [claimedBucket, List.filter, c1, c3, h5, h10]
        · intro h0
          omega
        · intro ft
          simp [FilterBuilder.build_years_filter, hp]
      · by_cases h3 : 3 ≤ n
        · have hp : FilterBuilder.parse_experience_years s = some "3" := by
            simp [FilterBuilder.parse_experience_years, hn, h10, h5, h3]
          refine ⟨"3", hp, by decide, ?_, ?_, ?_, by decide⟩
          · intro _
            have c1 : 1 ≤ n := by omega
            have hd : digitsToNat "3".data = 3 := by decide
            rw [hd]
            simp [claimedBucket, List.filter, c1, h3, h5, h10]
          · intro h0
            omega
          · intro ft
            simp [FilterBuilder.build_years_filter, hp]
        · have hp : FilterBuilder.parse_experience_years s = some "1" := by
            simp [FilterBuilder.parse_experience_years, hn, h10, h5, h3]
          refine ⟨"1", hp, by decide, ?_, fun _ => rfl, ?_, by decide⟩
          · intro h1
            have hd : digitsToNat "1".data = 1 := by decide
            rw [hd]
            simp [claimedBucket, List.filter, h1, h3, h5, h10]
          · intro ft
            simp [FilterBuilder.build_years_filter, hp]

/-! ## Witnesses -/

/-- Witness for C2 (amended) at a concrete pipeline whose store returns two
candidates, one failing the hard criterion. -/
theorem C2_witness :
    pipeTwo.use_reranking = true ∧ pipeTwo.use_enhanced_reranker = true ∧
    (["JD degree"] : List String) ≠ [] ∧
    1 < (pipeTwo.tpuf_query (pipeTwo.embed_query "q") pipeTwo.initial_k none).length ∧
    (SearchPipeline.search pipeTwo "q" ["JD degree"] [] none).all
      (fun c => EnhancedReranker.check_hard_criteria ⟨pipeTwo.cross_encoder⟩ c
        ["JD degree"]) = true :=
  ⟨rfl, rfl, by decide, by decide,
    C2_amended pipeTwo "q" ["JD degree"] [] none rfl rfl (by decide) (by decide)⟩

/-- Witness for C4 (amended) at a two-candidate batch with distinct raw
cross-encoder scores and distinct distances. -/
theorem C4_witness :
    arrMin ([candA, candB].map (·.distance)) <
      arrMax ([candA, candB].map (·.distance)) ∧
    arrMin ([candA, candB].map fun x => rA.cross_encoder "q" (rerankTextR x)) <
      arrMax ([candA, candB].map fun x => rA.cross_encoder "q" (rerankTextR x)) ∧
    ((Reranker.rerank rA "q" [candA, candB] [] true (6/10) (2/10) (2/10)).Forall
      fun s => 0 ≤ s.ce_score ∧ s.ce_score ≤ 1) ∧
    ((Reranker.rerank rA "q" [candA, candB] [] true (6/10) (2/10) (2/10)).Forall
      fun s =>
        (s.cand.distance = arrMin ([candA, candB].map (·.distance)) →
          s.distance_score = 1) ∧
        (s.cand.distance = arrMax ([candA, candB].map (·.distance)) →
          s.distance_score = 0)) ∧
    ¬ arrMin ([candN "1", candN "2"].map (·.distance)) <
      arrMax ([candN "1", candN "2"].map (·.distance)) ∧
    ((Reranker.rerank rA "q" [candN "1", candN "2"] [] true (6/10) (2/10)
      (2/10)).Forall fun s => s.distance_score = 1) :=
  ⟨by decide, by decide,
    (C4_amended.1 rA "q" [candA, candB] [] true (6/10) (2/10) (2/10)).2.1
      (by decide),
    (C4_amended.1 rA "q" [candA, candB] [] true (6/10) (2/10) (2/10)).2.2.1
      (by decide),
    by decide,
    (C4_amended.1 rA "q" [candN "1", candN "2"] [] true (6/10) (2/10)
      (2/10)).2.2.2.2 (by decide)⟩

/-- Witness for C8 (amended) at a one-ID list and at three results. -/
theorem C8_witness :
    (["a"] : List String) ≠ [] ∧
    EvaluationClient.evaluate "c.yml" ["a"] =
      .ok ⟨"c.yml", (["a"] : List String).take 10⟩ ∧
    cands11.take 3 ≠ [] ∧
    EvaluationClient.evaluate_from_results "c.yml" cands11 3 =
      .ok ⟨"c.yml", (cands11.take (min 3 10)).map (·.id)⟩ :=
  ⟨by decide, (C8_amended "c.yml" ["a"]).2.1 (by decide), by decide,
    ((C8_amended "c.yml" ["a"]).2.2 cands11 3).2 (by decide)⟩

/-- Witness for C9 (amended) at the input `"3+ years"`, whose first parsed
number is 3. -/
theorem C9_witness :
    firstNumber "3+ years".data = some 3 ∧
    (∃ b : String, FilterBuilder.parse_experience_years "3+ years" = some b ∧
      b ∈ (["1", "3", "5", "10"] : List String) ∧
      (1 ≤ 3 → claimedBucket 3 = some (digitsToNat b.data)) ∧
      (3 = 0 → b = "1") ∧
      (∀ ft : String, FilterBuilder.build_years_filter "3+ years" ft =
        some (ft ++ "_years",
          (["1", "3", "5", "10"] : List String).filter
            (fun x => digitsToNat b.data ≤ digitsToNat x.data))) ∧
      (["1", "3", "5", "10"] : List String).filter
        (fun x => digitsToNat b.data ≤ digitsToNat x.data) ≠ []) :=
  ⟨by decide, (C9_amended "3+ years").2 3 (by decide)⟩

/-- Witness for C10 at a candidate failing the hard criterion (so filtering
removes everything) and at a pipeline whose store returns nothing. -/
theorem C10_witness :
    (["JD degree"] : List String) ≠ [] ∧
    [candPlain].filter
      (fun c => EnhancedReranker.check_hard_criteria eA c ["JD degree"]) = [] ∧
    EnhancedReranker.rerank eA "q" [candPlain] ["JD degree"] [] true (3/10)
      (5/10) (2/10) = [] ∧
    pipeEmpty.tpuf_query (pipeEmpty.embed_query "q") pipeEmpty.initial_k none = [] ∧
    SearchPipeline.search pipeEmpty "q" [] [] none = [] :=
  ⟨by decide, by decide,
    C10_degenerate_empty.2.2.1 eA "q" [candPlain] ["JD degree"] [] true (3/10)
      (5/10) (2/10) (by decide) (by decide),
    rfl,
    C10_degenerate_empty.2.2.2 pipeEmpty "q" [] [] none rfl⟩

end SearchRank
